import Mathlib

/-!
Verification of the OCR exam-question pipeline (backend/src): the text
parser (`parser.ts`), the service/domain tagger (`awsTagger.ts`), the
batch aggregator and heatmap projector (`analyzer.ts`), and the per-item
processing loop of the upload endpoint (`index.ts`).  JavaScript strings
are modelled as `String`/`List Char`, JavaScript numbers as `ℚ` (all
arithmetic in the source is exact on the values of interest), regex
matching is modelled by explicit scanning functions that follow the
leftmost-match backtracking semantics of the concrete regexes in the
source, and JavaScript object key/Map insertion order is modelled by
association lists.
-/

/-! ## Character-level helpers (JS regex classes and string methods) -/

/-- The JavaScript `\s` class restricted to the ASCII whitespace that can
occur here: space, tab, newline, carriage return, vertical tab, form feed. -/
def isJsSpace (c : Char) : Bool :=
  c = ' ' || c = '\t' || c = '\n' || c = '\r' || c = '\x0b' || c = '\x0c'

/-- The option-letter class `[A-D]` under the `i` flag: `A`–`D` or `a`–`d`. -/
def isLetterAD (c : Char) : Bool :=
  ('A' ≤ c && c ≤ 'D') || ('a' ≤ c && c ≤ 'd')

/-- The optional option separator class `[:\)\.]`. -/
def isOptSep (c : Char) : Bool :=
  c = ':' || c = ')' || c = '.'

/-- Case-insensitive prefix test (JS regex literal under the `i` flag). -/
def startsWithCI : List Char → List Char → Bool
  | [], _ => true
  | _ :: _, [] => false
  | p :: ps, c :: cs => (p.toLower == c.toLower) && startsWithCI ps cs

/-- Exact prefix test. -/
def startsWithList : List Char → List Char → Bool
  | [], _ => true
  | _ :: _, [] => false
  | p :: ps, c :: cs => (p == c) && startsWithList ps cs

/-- JavaScript `String.prototype.includes`: substring occurrence. -/
def containsSub (hay needle : List Char) : Bool :=
  match hay with
  | [] => needle.isEmpty
  | _ :: rest => startsWithList needle hay || containsSub rest needle

/-- JavaScript `String.prototype.trim` on a character list. -/
def trimChars (cs : List Char) : List Char :=
  ((cs.dropWhile isJsSpace).reverse.dropWhile isJsSpace).reverse

/-- `text.replace(/\r\n/g, "\n").replace(/\r/g, "\n")` from `parseQuestion`. -/
def normalizeChars : List Char → List Char
  | [] => []
  | '\r' :: '\n' :: rest => '\n' :: normalizeChars rest
  | '\r' :: rest => '\n' :: normalizeChars rest
  | c :: rest => c :: normalizeChars rest

/-! ## parser.ts: `parseQuestion` -/

structure ParsedQuestion where
  question : String
  options : List String
  yourAnswer : String
  correctAnswer : String
  explanation : String
  rawText : String
deriving Repr, DecidableEq

/-- The lookahead of the question regex
`(?=(?:A\)|Options:|Your Answer:|Correct Answer:|$))` (flags `is`). -/
def questionStop (cs : List Char) : Bool :=
  startsWithCI "a)".data cs || startsWithCI "options:".data cs ||
  startsWithCI "your answer:".data cs || startsWithCI "correct answer:".data cs ||
  cs.isEmpty

/-- The lazy capture `(.*?)` of the question regex: shortest prefix whose
stopping point satisfies the lookahead (always succeeds, `$` included). -/
def questionCapture : List Char → List Char
  | [] => []
  | c :: rest => if questionStop (c :: rest) then [] else c :: questionCapture rest

/-- Greedy `[:\s]*` after the `Question`/`Q` label. -/
def dropLabelSeps (cs : List Char) : List Char :=
  cs.dropWhile (fun c => c = ':' || isJsSpace c)

/-- Leftmost match of
`(?:Question[:\s]*|Q[:\s]*)(.*?)(?=(?:A\)|Options:|Your Answer:|Correct Answer:|$))`
(flags `is`): scan for the first `q`/`Q`; prefer the `Question` branch when it
matches there; the tail (lazy capture bounded by the lookahead) always succeeds. -/
def findQuestion : List Char → Option (List Char)
  | [] => none
  | c :: rest =>
    if c = 'Q' || c = 'q' then
      if startsWithCI "question".data (c :: rest) then
        some (questionCapture (dropLabelSeps ((c :: rest).drop 8)))
      else
        some (questionCapture (dropLabelSeps rest))
    else findQuestion rest

/-- Backtracking of the greedy `\s*` of the options regex when `[^\n]+` has
no character left after the whitespace run: the engine gives back trailing
whitespace until the next character is not a newline; `[^\n]+` then
greedily takes the remaining run characters up to the next newline.  Since
every run character after the chosen position is a newline, the capture is
that single character and the newlines stay unconsumed. -/
def backtrackRun (run : List Char) : Option (List Char × List Char) :=
  let rev := run.reverse
  let nls := rev.takeWhile (fun c => c = '\n')
  match rev.dropWhile (fun c => c = '\n') with
  | [] => none
  | c :: _ => some ([c], nls)

/-- Matching `\s*([^\n]+)` with the greedy/backtracking semantics of the
options regex; returns the capture and the unconsumed remainder. -/
def matchWsBody (cs : List Char) : Option (List Char × List Char) :=
  match cs.dropWhile isJsSpace with
  | c :: rest =>
    some ((c :: rest).takeWhile (fun x => x ≠ '\n'),
          (c :: rest).dropWhile (fun x => x ≠ '\n'))
  | [] => backtrackRun (cs.takeWhile isJsSpace)

/-- Matching `[:\)\.]?\s*([^\n]+)` right after an option letter: the
optional separator is consumed greedily, backtracking to the unconsumed
alternative when the rest fails. -/
def matchOptTail (cs : List Char) : Option (List Char × List Char) :=
  match cs with
  | c :: rest =>
    if isOptSep c then
      match matchWsBody rest with
      | some r => some r
      | none => matchWsBody cs
    else matchWsBody cs
  | [] => none

theorem matchWsBody_length_le (cs : List Char) :
    ∀ b r, matchWsBody cs = some (b, r) → r.length ≤ cs.length := by
  intro b r h
  unfold matchWsBody at h
  rcases hd : cs.dropWhile isJsSpace with _ | ⟨c, rest⟩
  · rw [hd] at h
    unfold backtrackRun at h
    rcases he : (cs.takeWhile isJsSpace).reverse.dropWhile (fun c => c = '\n') with _ | ⟨x, xs⟩
    · simp [he] at h
    · simp only [he] at h
      injection h with h'
      injection h' with h1 h2
      subst h2
      calc ((cs.takeWhile isJsSpace).reverse.takeWhile (fun c => c = '\n')).length
          ≤ (cs.takeWhile isJsSpace).reverse.length := (List.takeWhile_sublist _).length_le
        _ ≤ cs.length := by
            rw [List.length_reverse]
            exact (List.takeWhile_sublist _).length_le
  · rw [hd] at h
    injection h with h'
    injection h' with h1 h2
    subst h2
    calc ((c :: rest).dropWhile (fun x => x ≠ '\n')).length
        ≤ (c :: rest).length := (List.dropWhile_sublist _).length_le
      _ = (cs.dropWhile isJsSpace).length := by rw [hd]
      _ ≤ cs.length := (List.dropWhile_sublist _).length_le

theorem matchOptTail_length_le (cs : List Char) :
    ∀ b r, matchOptTail cs = some (b, r) → r.length ≤ cs.length := by
  intro b r h
  unfold matchOptTail at h
  rcases cs with _ | ⟨c, rest⟩
  · exact absurd h (by simp)
  · by_cases hs : isOptSep c
    · simp only [hs, if_true] at h
      rcases hw : matchWsBody rest with _ | r'
      · rw [hw] at h
        exact matchWsBody_length_le (c :: rest) _ _ h
      · rw [hw] at h
        injection h with h'
        subst h'
        exact le_trans (matchWsBody_length_le rest _ _ hw) (Nat.le_succ _)
    · simp only [hs, if_false] at h
      exact matchWsBody_length_le _ _ _ h

/-- The global scan of the options regex `([A-D])[:\)\.]?\s*([^\n]+)`
(flags `gi`): each match contributes a string
`` `${match[1]}: ${match[2].trim()}` `` and the scan resumes after the
match; a failed attempt at an option letter advances the scan by one
character.  The fuel argument only bounds the number of scan steps; every
step consumes at least one character (`matchOptTail_length_le`), so with
fuel equal to the text length the scan always runs to completion. -/
def scanOptionsAux : Nat → List Char → List String
  | 0, _ => []
  | _ + 1, [] => []
  | fuel + 1, c :: rest =>
    if isLetterAD c then
      match matchOptTail rest with
      | some (body, remaining) =>
        (String.mk [c] ++ ": " ++ String.mk (trimChars body)) :: scanOptionsAux fuel remaining
      | none => scanOptionsAux fuel rest
    else scanOptionsAux fuel rest

def scanOptions (cs : List Char) : List String :=
  scanOptionsAux cs.length cs

/-- Matching `Word\s+Answer[:\s]*([A-D])` (flag `i`) at the start of `cs`,
where `word` is `your` or `correct`: the greedy `\s+` and `[:\s]*` need no
backtracking since no shorter run can be followed by the required letter. -/
def matchAnswerAt (word : List Char) (cs : List Char) : Option Char :=
  if startsWithCI word cs then
    match cs.drop word.length with
    | c :: rest =>
      if isJsSpace c then
        let r2 := (c :: rest).dropWhile isJsSpace
        if startsWithCI "answer".data r2 then
          match (r2.drop 6).dropWhile (fun x => x = ':' || isJsSpace x) with
          | a :: _ => if isLetterAD a then some a else none
          | [] => none
        else none
      else none
    | [] => none
  else none

/-- Leftmost match of the `Your Answer` / `Correct Answer` regexes. -/
def findAnswer (word : List Char) : List Char → Option Char
  | [] => none
  | c :: rest =>
    match matchAnswerAt word (c :: rest) with
    | some a => some a
    | none => findAnswer word rest

/-- Leftmost match of `Explanation[:\s]*(.*?)$` (flags `is`): everything
after the label and its separators, to the end of the text. -/
def findExplanation : List Char → Option (List Char)
  | [] => none
  | c :: rest =>
    if startsWithCI "explanation".data (c :: rest) then
      some (dropLabelSeps ((c :: rest).drop 11))
    else findExplanation rest

/-- `parseQuestion` from `parser.ts`. -/
def parseQuestion (text : String) : ParsedQuestion :=
  let normalized := normalizeChars text.data
  { question :=
      match findQuestion normalized with
      | some cap => String.mk (trimChars cap)
      | none => ""
    options := scanOptions normalized
    yourAnswer :=
      match findAnswer "your".data normalized with
      | some a => String.mk [a.toUpper]
      | none => ""
    correctAnswer :=
      match findAnswer "correct".data normalized with
      | some a => String.mk [a.toUpper]
      | none => ""
    explanation :=
      match findExplanation normalized with
      | some cap => String.mk (trimChars cap)
      | none => ""
    rawText := text }

/-! ## awsTagger.ts: `tagQuestion` -/

structure AWSTags where
  services : List String
  domains : List String
  keywords : List String
deriving Repr, DecidableEq

/-- The `AWS_SERVICES` reference list (note: `"Systems Manager"` occurs
twice in the source, once under Security & Identity and once under
Monitoring & Logging). -/
def AWS_SERVICES : List String :=
  ["EC2", "Lambda", "Elastic Beanstalk", "ECS", "EKS", "Fargate", "Lightsail",
   "S3", "EBS", "EFS", "FSx", "Storage Gateway", "Glacier",
   "RDS", "DynamoDB", "ElastiCache", "Aurora", "DocumentDB", "Neptune", "Redshift", "MemoryDB",
   "VPC", "CloudFront", "Route 53", "API Gateway", "Direct Connect", "ELB", "ALB", "NLB", "Global Accelerator",
   "IAM", "Cognito", "Secrets Manager", "KMS", "Systems Manager", "Parameter Store", "WAF", "Shield", "GuardDuty", "Inspector",
   "SQS", "SNS", "EventBridge", "Step Functions", "SWF", "Amazon MQ", "Kinesis", "AppSync",
   "CodeCommit", "CodeBuild", "CodeDeploy", "CodePipeline", "CodeArtifact", "CodeGuru", "X-Ray", "CloudFormation",
   "CloudWatch", "CloudTrail", "Config", "Systems Manager",
   "ECR", "App Runner",
   "SAM", "Amplify"]

/-- The `DOMAINS` mapping, in object-literal insertion order. -/
def DOMAINS : List (String × List String) :=
  [("Development with AWS Services",
    ["Lambda", "API Gateway", "DynamoDB", "S3", "SQS", "SNS", "EventBridge", "Step Functions"]),
   ("Security",
    ["IAM", "Cognito", "KMS", "Secrets Manager", "Parameter Store", "WAF", "X-Ray"]),
   ("Deployment",
    ["CodeDeploy", "CodePipeline", "CodeBuild", "CodeCommit", "Elastic Beanstalk", "CloudFormation", "SAM"]),
   ("Troubleshooting and Optimization",
    ["CloudWatch", "X-Ray", "CloudTrail", "ElastiCache", "DynamoDB", "Lambda"])]

/-- The keyword phrase list of `tagQuestion`. -/
def TAG_KEYWORDS : List String :=
  ["serverless", "microservices", "container", "scaling", "high availability",
   "fault tolerant", "cost optimization", "performance", "security", "encryption",
   "caching", "monitoring", "logging", "deployment", "CI/CD", "blue-green",
   "canary", "rollback", "throttling", "rate limiting", "CORS", "authentication",
   "authorization", "least privilege", "IAM role", "policy", "VPC", "subnet",
   "security group", "NACL", "queue", "topic", "event-driven", "asynchronous",
   "synchronous", "idempotent", "stateless", "stateful", "cold start"]

/-- JavaScript `toUpperCase` / `toLowerCase` on the ASCII text involved. -/
def upperData (s : String) : List Char := s.data.map Char.toUpper

def lowerData (s : String) : List Char := s.data.map Char.toLower

/-- `tagQuestion` from `awsTagger.ts`: substring matching of the service
vocabulary (also with the redundant `AWS `-prefixed variant), domain
buckets fired by any matched member service, and keyword phrases. -/
def tagQuestion (text : String) : AWSTags :=
  let upperText := upperData text
  let services := AWS_SERVICES.filter (fun service =>
    containsSub upperText (upperData service) ||
    containsSub upperText (upperData ("AWS " ++ service)))
  let domains := (DOMAINS.filter (fun d =>
    d.2.any (fun s => services.any (fun ts => upperData ts = upperData s)))).map Prod.fst
  let keywords := TAG_KEYWORDS.filter (fun keyword =>
    containsSub upperText (upperData keyword))
  { services := services, domains := domains, keywords := keywords }

/-! ## index.ts: per-item correctness and batch processing -/

structure QuestionAnalysis where
  file : String
  parsed : ParsedQuestion
  tags : AWSTags
  isCorrect : Bool
deriving Repr, DecidableEq

/-- `const isCorrect = parsed.yourAnswer === parsed.correctAnswer` from the
upload endpoint. -/
def isCorrectOf (parsed : ParsedQuestion) : Bool :=
  parsed.yourAnswer == parsed.correctAnswer

/-- One iteration of the per-image loop of `/api/ocr/upload`: a successful
recognition is parsed and tagged; a failed one is caught and converted to
a degraded record with empty fields, an error marker in `rawText`, empty
tags, and `isCorrect := false`. -/
def processImage (fileName : String) (ocrResult : Except String String) : QuestionAnalysis :=
  match ocrResult with
  | .ok extractedText =>
    let parsed := parseQuestion extractedText
    let tags := tagQuestion extractedText
    { file := fileName, parsed := parsed, tags := tags, isCorrect := isCorrectOf parsed }
  | .error msg =>
    { file := fileName
      parsed := { question := "", options := [], yourAnswer := "", correctAnswer := "",
                  explanation := "", rawText := "Error: " ++ msg }
      tags := { services := [], domains := [], keywords := [] }
      isCorrect := false }

/-- The whole per-image loop: every image is processed, failures included. -/
def processBatch (items : List (String × Except String String)) : List QuestionAnalysis :=
  items.map (fun item => processImage item.1 item.2)

/-! ## analyzer.ts: data model of `StudySummary` -/

/-- One `{total, correct, incorrect, accuracy}` breakdown record. -/
structure BD where
  total : Nat
  correct : Nat
  incorrect : Nat
  accuracy : ℚ
deriving Repr, DecidableEq

structure AreaEntry where
  service : String
  accuracy : ℚ
  questionsReviewed : Nat
deriving Repr, DecidableEq

structure KeywordFreq where
  keyword : String
  count : Nat
deriving Repr, DecidableEq

structure StudySummary where
  totalQuestions : Nat
  correctCount : Nat
  incorrectCount : Nat
  accuracy : ℚ
  serviceBreakdown : List (String × BD)
  domainBreakdown : List (String × BD)
  weakAreas : List AreaEntry
  strongAreas : List AreaEntry
  topKeywords : List KeywordFreq
  recommendations : List String
deriving Repr, DecidableEq

structure HeatmapItem where
  service : String
  accuracy : ℚ
  total : Nat
  color : String
  status : String
deriving Repr, DecidableEq

/-! ## analyzer.ts: breakdown construction

JavaScript object string keys (the service and domain names are not array
indices) enumerate in insertion order, so the breakdown objects are
modelled as association lists with first-insertion key order. -/

/-- Incrementing one breakdown record for one observation. -/
def bumpBD (b : BD) (ic : Bool) : BD :=
  { b with
    total := b.total + 1
    correct := b.correct + (if ic then 1 else 0)
    incorrect := b.incorrect + (if ic then 0 else 1) }

/-- `if (!breakdown[key]) breakdown[key] = {0,0,0,0}; ...` followed by the
three counter increments, on the association-list model. -/
def upsertBD (key : String) (ic : Bool) : List (String × BD) → List (String × BD)
  | [] => [(key, bumpBD ⟨0, 0, 0, 0⟩ ic)]
  | (k, b) :: rest =>
    if k = key then (k, bumpBD b ic) :: rest else (k, b) :: upsertBD key ic rest

/-- The double `forEach` over analyses and their tag keys building a
breakdown object. -/
def buildBreakdown (keysOf : QuestionAnalysis → List String)
    (analyses : List QuestionAnalysis) : List (String × BD) :=
  analyses.foldl
    (fun acc a => (keysOf a).foldl (fun acc2 key => upsertBD key a.isCorrect acc2) acc) []

/-- The post-pass `breakdown.accuracy = (breakdown.correct / breakdown.total) * 100`. -/
def withAccuracy (l : List (String × BD)) : List (String × BD) :=
  l.map (fun e => (e.1, { e.2 with accuracy := (e.2.correct : ℚ) / (e.2.total : ℚ) * 100 }))

/-! ## analyzer.ts: stable sorting

`Array.prototype.sort` is stable, so it is modelled by stable insertion
sort on a sort key: a later element is inserted after every earlier
element that the comparator does not order strictly after it. -/

def insertSortedAsc {α β : Type} [LinearOrder β] (k : α → β) (x : α) : List α → List α
  | [] => [x]
  | y :: ys => if k y ≤ k x then y :: insertSortedAsc k x ys else x :: y :: ys

def stableSortAsc {α β : Type} [LinearOrder β] (k : α → β) (l : List α) : List α :=
  l.foldl (fun acc x => insertSortedAsc k x acc) []

def insertSortedDesc {α β : Type} [LinearOrder β] (k : α → β) (x : α) : List α → List α
  | [] => [x]
  | y :: ys => if k x ≤ k y then y :: insertSortedDesc k x ys else x :: y :: ys

def stableSortDesc {α β : Type} [LinearOrder β] (k : α → β) (l : List α) : List α :=
  l.foldl (fun acc x => insertSortedDesc k x acc) []

/-! ## analyzer.ts: `generateSummary` pieces -/

def countCorrect (analyses : List QuestionAnalysis) : Nat :=
  analyses.foldl (fun n a => if a.isCorrect then n + 1 else n) 0

def countIncorrect (analyses : List QuestionAnalysis) : Nat :=
  analyses.foldl (fun n a => if a.isCorrect then n else n + 1) 0

def overallAccuracy (analyses : List QuestionAnalysis) : ℚ :=
  if 0 < analyses.length then (countCorrect analyses : ℚ) / (analyses.length : ℚ) * 100 else 0

def serviceBreakdownOf (analyses : List QuestionAnalysis) : List (String × BD) :=
  withAccuracy (buildBreakdown (fun a => a.tags.services) analyses)

def domainBreakdownOf (analyses : List QuestionAnalysis) : List (String × BD) :=
  withAccuracy (buildBreakdown (fun a => a.tags.domains) analyses)

/-- The weak-area pass: entries with `total >= 2` and `accuracy < 70`, in
breakdown order, before sorting. -/
def weakPre (sb : List (String × BD)) : List AreaEntry :=
  (sb.filter (fun e => decide (2 ≤ e.2.total) && decide (e.2.accuracy < 70))).map
    (fun e => { service := e.1, accuracy := e.2.accuracy, questionsReviewed := e.2.total })

/-- The strong-area pass: the `else if` branch, so `total >= 2`, not
`accuracy < 70`, and `accuracy >= 85`. -/
def strongPre (sb : List (String × BD)) : List AreaEntry :=
  (sb.filter (fun e =>
      decide (2 ≤ e.2.total) && !decide (e.2.accuracy < 70) && decide (85 ≤ e.2.accuracy))).map
    (fun e => { service := e.1, accuracy := e.2.accuracy, questionsReviewed := e.2.total })

def weakAreasOf (analyses : List QuestionAnalysis) : List AreaEntry :=
  stableSortAsc (fun e => e.accuracy) (weakPre (serviceBreakdownOf analyses))

def strongAreasOf (analyses : List QuestionAnalysis) : List AreaEntry :=
  stableSortDesc (fun e => e.accuracy) (strongPre (serviceBreakdownOf analyses))

/-- The keyword `Map` counting pass (insertion order = first occurrence). -/
def bumpCount (key : String) : List (String × Nat) → List (String × Nat)
  | [] => [(key, 1)]
  | (k, n) :: rest => if k = key then (k, n + 1) :: rest else (k, n) :: bumpCount key rest

def countKeywords (analyses : List QuestionAnalysis) : List (String × Nat) :=
  analyses.foldl (fun acc a => a.tags.keywords.foldl (fun acc2 kw => bumpCount kw acc2) acc) []

/-- The keyword frequency list in first-seen order, before sorting. -/
def keywordFreqs (analyses : List QuestionAnalysis) : List KeywordFreq :=
  (countKeywords analyses).map (fun p => { keyword := p.1, count := p.2 })

def topKeywordsOf (analyses : List QuestionAnalysis) : List KeywordFreq :=
  (stableSortDesc (fun e => e.count) (keywordFreqs analyses)).take 15

/-! ## analyzer.ts: `generateRecommendations` -/

/-- The ASCII apostrophe used inside two recommendation strings. -/
def apos : String := String.singleton (Char.ofNat 39)

def fundamentalsMsg : String :=
  "📚 Overall score below 60% - recommend reviewing AWS fundamentals and service overviews"

def onTrackMsg : String :=
  "📈 You" ++ apos ++ "re on track! Focus on weak areas to boost your score above 75%"

def examReadyMsg : String :=
  "🎯 Excellent performance! You" ++ apos ++ "re exam-ready. Focus on scenario-based practice"

def securityMsg : String :=
  "🔐 Security pattern detected - review IAM policies, KMS encryption, and Cognito authentication"

def serverlessMsg : String :=
  "⚡ Serverless concepts need attention - review Lambda triggers, async patterns, and cold starts"

def moreQuestionsMsg : String :=
  "📊 Process more questions (20+) for accurate weak-area detection"

def priorityMsg (names : List String) : String :=
  "⚠️ Priority review needed: " ++ String.intercalate ", " names

/-- Models JavaScript `Number.prototype.toFixed(1)` on the nonnegative
rationals that occur as accuracies: round to one decimal place. -/
def toFixed1 (q : ℚ) : String :=
  let n : ℤ := round (q * 10)
  toString (n / 10) ++ "." ++ toString (n % 10)

def deepDiveMsg (domain : String) (acc : ℚ) : String :=
  "🔍 " ++ domain ++ ": " ++ toFixed1 acc ++ "% - Deep dive recommended"

/-- The overall-performance banding pass of `generateRecommendations`. -/
def overallRecs (summary : StudySummary) : List String :=
  if summary.accuracy < 60 then [fundamentalsMsg]
  else if summary.accuracy < 75 then [onTrackMsg]
  else if 85 ≤ summary.accuracy then [examReadyMsg]
  else []

/-- The weak-area pass of `generateRecommendations`. -/
def weakRecs (summary : StudySummary) : List String :=
  if 0 < summary.weakAreas.length then
    [priorityMsg ((summary.weakAreas.take 3).map (fun w => w.service))]
  else []

/-- The per-domain deep-dive pass of `generateRecommendations`. -/
def domainRecs (summary : StudySummary) : List String :=
  (summary.domainBreakdown.filter (fun e => decide (e.2.accuracy < 65))).map
    (fun e => deepDiveMsg e.1 e.2.accuracy)

/-- The security-pattern pass of `generateRecommendations`. -/
def securityRecs (analyses : List QuestionAnalysis) : List String :=
  let incorrectAnalyses := analyses.filter (fun a => !a.isCorrect)
  let securityMistakes := incorrectAnalyses.filter (fun a =>
    a.tags.services.any (fun s => ["IAM", "KMS", "Cognito", "Secrets Manager"].contains s))
  if 3 ≤ securityMistakes.length then [securityMsg] else []

/-- The serverless-pattern pass of `generateRecommendations`. -/
def serverlessRecs (analyses : List QuestionAnalysis) : List String :=
  let incorrectAnalyses := analyses.filter (fun a => !a.isCorrect)
  let serverlessMistakes := incorrectAnalyses.filter (fun a =>
    a.tags.keywords.any (fun k =>
      containsSub (lowerData k) "serverless".data || containsSub (lowerData k) "lambda".data))
  if 3 ≤ serverlessMistakes.length then [serverlessMsg] else []

/-- The study-strategy pass of `generateRecommendations`. -/
def studyRecs (summary : StudySummary) : List String :=
  if summary.totalQuestions < 20 then [moreQuestionsMsg] else []

/-- `generateRecommendations` from `analyzer.ts`: the six independent
passes, appended in source order. -/
def generateRecommendations (summary : StudySummary)
    (analyses : List QuestionAnalysis) : List String :=
  overallRecs summary ++ weakRecs summary ++ domainRecs summary ++
    securityRecs analyses ++ serverlessRecs analyses ++ studyRecs summary

/-- The summary object of `generateSummary` just before the final
`summary.recommendations = generateRecommendations(summary, analyses)`
assignment. -/
def summaryBase (analyses : List QuestionAnalysis) : StudySummary :=
  { totalQuestions := analyses.length
    correctCount := countCorrect analyses
    incorrectCount := countIncorrect analyses
    accuracy := overallAccuracy analyses
    serviceBreakdown := serviceBreakdownOf analyses
    domainBreakdown := domainBreakdownOf analyses
    weakAreas := weakAreasOf analyses
    strongAreas := strongAreasOf analyses
    topKeywords := topKeywordsOf analyses
    recommendations := [] }

/-- `generateSummary` from `analyzer.ts`. -/
def generateSummary (analyses : List QuestionAnalysis) : StudySummary :=
  { summaryBase analyses with
    recommendations := generateRecommendations (summaryBase analyses) analyses }

/-! ## analyzer.ts: heatmap projection -/

def getHeatColor (accuracy : ℚ) : String :=
  if 85 ≤ accuracy then "#22c55e"
  else if 70 ≤ accuracy then "#eab308"
  else if 50 ≤ accuracy then "#f97316"
  else "#ef4444"

def getStatus (accuracy : ℚ) : String :=
  if 85 ≤ accuracy then "Strong"
  else if 70 ≤ accuracy then "Good"
  else if 50 ≤ accuracy then "Review"
  else "Weak"

/-- `generateHeatmapData` from `analyzer.ts`: one item per service
breakdown entry, sorted ascending by accuracy (stable sort). -/
def generateHeatmapData (summary : StudySummary) : List HeatmapItem :=
  stableSortAsc (fun h => h.accuracy)
    (summary.serviceBreakdown.map (fun e =>
      { service := e.1
        accuracy := e.2.accuracy
        total := e.2.total
        color := getHeatColor e.2.accuracy
        status := getStatus e.2.accuracy }))

/-! ## Lemmas about the stable sorts -/

theorem insertSortedAsc_perm {α β : Type} [LinearOrder β] (k : α → β) (x : α) (l : List α) :
    List.Perm (insertSortedAsc k x l) (x :: l) := by
  induction l with
  | nil => rfl
  | cons y ys ih =>
    unfold insertSortedAsc
    by_cases h : k y ≤ k x
    · simp only [if_pos h]
      exact (ih.cons y).trans (List.Perm.swap x y ys)
    · simp [if_neg h]

theorem insertSortedDesc_perm {α β : Type} [LinearOrder β] (k : α → β) (x : α) (l : List α) :
    List.Perm (insertSortedDesc k x l) (x :: l) := by
  induction l with
  | nil => rfl
  | cons y ys ih =>
    unfold insertSortedDesc
    by_cases h : k x ≤ k y
    · simp only [if_pos h]
      exact (ih.cons y).trans (List.Perm.swap x y ys)
    · simp [if_neg h]

theorem pairwise_insertSortedAsc {α β : Type} [LinearOrder β] (k : α → β) (x : α) {l : List α}
    (hl : l.Pairwise (fun a b => k a ≤ k b)) :
    (insertSortedAsc k x l).Pairwise (fun a b => k a ≤ k b) := by
  induction l with
  | nil => simp [insertSortedAsc]
  | cons y ys ih =>
    obtain ⟨hy, hys⟩ := List.pairwise_cons.1 hl
    unfold insertSortedAsc
    by_cases h : k y ≤ k x
    · simp only [if_pos h]
      refine List.pairwise_cons.2 ⟨?_, ih hys⟩
      intro z hz
      rcases List.mem_cons.1 ((insertSortedAsc_perm k x ys).mem_iff.1 hz) with rfl | hz
      · exact h
      · exact hy z hz
    · simp only [if_neg h]
      refine List.pairwise_cons.2 ⟨?_, hl⟩
      intro z hz
      rcases List.mem_cons.1 hz with rfl | hz
      · exact le_of_not_le h
      · exact le_trans (le_of_not_le h) (hy z hz)

theorem pairwise_insertSortedDesc {α β : Type} [LinearOrder β] (k : α → β) (x : α) {l : List α}
    (hl : l.Pairwise (fun a b => k b ≤ k a)) :
    (insertSortedDesc k x l).Pairwise (fun a b => k b ≤ k a) := by
  induction l with
  | nil => simp [insertSortedDesc]
  | cons y ys ih =>
    obtain ⟨hy, hys⟩ := List.pairwise_cons.1 hl
    unfold insertSortedDesc
    by_cases h : k x ≤ k y
    · simp only [if_pos h]
      refine List.pairwise_cons.2 ⟨?_, ih hys⟩
      intro z hz
      rcases List.mem_cons.1 ((insertSortedDesc_perm k x ys).mem_iff.1 hz) with rfl | hz
      · exact h
      · exact hy z hz
    · simp only [if_neg h]
      refine List.pairwise_cons.2 ⟨?_, hl⟩
      intro z hz
      rcases List.mem_cons.1 hz with rfl | hz
      · exact le_of_not_le h
      · exact le_trans (hy z hz) (le_of_not_le h)

theorem stableSortAsc_perm {α β : Type} [LinearOrder β] (k : α → β) (l : List α) :
    List.Perm (stableSortAsc k l) l := by
  suffices h : ∀ (l acc : List α),
      List.Perm (l.foldl (fun a x => insertSortedAsc k x a) acc) (acc ++ l) by
    simpa [stableSortAsc] using h l []
  intro l
  induction l with
  | nil => intro acc; simp
  | cons x xs ih =>
    intro acc
    simp only [List.foldl_cons]
    exact (ih _).trans (((insertSortedAsc_perm k x acc).append_right xs).trans
      List.perm_middle.symm)

theorem stableSortDesc_perm {α β : Type} [LinearOrder β] (k : α → β) (l : List α) :
    List.Perm (stableSortDesc k l) l := by
  suffices h : ∀ (l acc : List α),
      List.Perm (l.foldl (fun a x => insertSortedDesc k x a) acc) (acc ++ l) by
    simpa [stableSortDesc] using h l []
  intro l
  induction l with
  | nil => intro acc; simp
  | cons x xs ih =>
    intro acc
    simp only [List.foldl_cons]
    exact (ih _).trans (((insertSortedDesc_perm k x acc).append_right xs).trans
      List.perm_middle.symm)

theorem pairwise_stableSortAsc {α β : Type} [LinearOrder β] (k : α → β) (l : List α) :
    (stableSortAsc k l).Pairwise (fun a b => k a ≤ k b) := by
  suffices h : ∀ (l acc : List α), acc.Pairwise (fun a b => k a ≤ k b) →
      (l.foldl (fun a x => insertSortedAsc k x a) acc).Pairwise (fun a b => k a ≤ k b) by
    exact h l [] (by simp)
  intro l
  induction l with
  | nil => intro acc h; exact h
  | cons x xs ih =>
    intro acc hacc
    simp only [List.foldl_cons]
    exact ih _ (pairwise_insertSortedAsc k x hacc)

theorem pairwise_stableSortDesc {α β : Type} [LinearOrder β] (k : α → β) (l : List α) :
    (stableSortDesc k l).Pairwise (fun a b => k b ≤ k a) := by
  suffices h : ∀ (l acc : List α), acc.Pairwise (fun a b => k b ≤ k a) →
      (l.foldl (fun a x => insertSortedDesc k x a) acc).Pairwise (fun a b => k b ≤ k a) by
    exact h l [] (by simp)
  intro l
  induction l with
  | nil => intro acc h; exact h
  | cons x xs ih =>
    intro acc hacc
    simp only [List.foldl_cons]
    exact ih _ (pairwise_insertSortedDesc k x hacc)

theorem filter_insertSortedDesc {α β : Type} [LinearOrder β] (k : α → β) (x : α) (c : β)
    {l : List α} (hl : l.Pairwise (fun a b => k b ≤ k a)) :
    (insertSortedDesc k x l).filter (fun a => decide (k a = c)) =
      l.filter (fun a => decide (k a = c)) ++ (if k x = c then [x] else []) := by
  induction l with
  | nil =>
    unfold insertSortedDesc
    by_cases hx : k x = c <;> simp [List.filter_cons, hx]
  | cons y ys ih =>
    obtain ⟨hy, hys⟩ := List.pairwise_cons.1 hl
    unfold insertSortedDesc
    by_cases h : k x ≤ k y
    · simp only [if_pos h, List.filter_cons]
      by_cases hyc : k y = c <;> simp [hyc, ih hys]
    · simp only [if_neg h]
      by_cases hx : k x = c
      · have hnone : ∀ z ∈ y :: ys, ¬ (k z = c) := by
          intro z hz
          rcases List.mem_cons.1 hz with rfl | hz
          · intro hzc; exact h (le_of_eq (hx ▸ hzc.symm ▸ rfl))
          · intro hzc
            exact h (le_trans (hzc ▸ hx.symm ▸ le_refl c) (hy z hz))
        have hfil : (y :: ys).filter (fun a => decide (k a = c)) = [] := by
          rw [List.filter_eq_nil_iff]
          intro z hz
          simpa using hnone z hz
        simp [List.filter_cons, hx, hfil]
      · simp [List.filter_cons, hx]

theorem filter_stableSortDesc {α β : Type} [LinearOrder β] (k : α → β) (c : β) (l : List α) :
    (stableSortDesc k l).filter (fun a => decide (k a = c)) =
      l.filter (fun a => decide (k a = c)) := by
  suffices h : ∀ (l acc : List α), acc.Pairwise (fun a b => k b ≤ k a) →
      (l.foldl (fun a x => insertSortedDesc k x a) acc).filter (fun a => decide (k a = c)) =
        acc.filter (fun a => decide (k a = c)) ++ l.filter (fun a => decide (k a = c)) by
    simpa [stableSortDesc] using h l [] (by simp)
  intro l
  induction l with
  | nil => intro acc hacc; simp
  | cons x xs ih =>
    intro acc hacc
    simp only [List.foldl_cons]
    rw [ih _ (pairwise_insertSortedDesc k x hacc), filter_insertSortedDesc k x c hacc]
    by_cases hx : k x = c <;> simp [List.filter_cons, hx, List.append_assoc]

/-! ## Lemmas about breakdown construction -/

theorem foldl_preserve {γ δ : Type} (P : γ → Prop) (step : γ → δ → γ)
    (hstep : ∀ acc x, P acc → P (step acc x)) :
    ∀ (l : List δ) (acc : γ), P acc → P (l.foldl step acc)
  | [], _, h => h
  | x :: xs, acc, h => foldl_preserve P step hstep xs (step acc x) (hstep acc x h)

theorem keys_upsertBD (key : String) (ic : Bool) (l : List (String × BD)) :
    (upsertBD key ic l).map Prod.fst =
      if key ∈ l.map Prod.fst then l.map Prod.fst else l.map Prod.fst ++ [key] := by
  induction l with
  | nil => simp [upsertBD]
  | cons e rest ih =>
    obtain ⟨k, b⟩ := e
    unfold upsertBD
    by_cases h : k = key
    · subst h
      simp
    · simp only [if_neg h, List.map_cons, List.mem_cons]
      rw [ih]
      by_cases hmem : key ∈ rest.map Prod.fst
      · simp [hmem, h, Ne.symm h]
      · simp [hmem, h, Ne.symm h]

theorem nodup_keys_upsertBD (key : String) (ic : Bool) {l : List (String × BD)}
    (h : (l.map Prod.fst).Nodup) : ((upsertBD key ic l).map Prod.fst).Nodup := by
  rw [keys_upsertBD]
  by_cases hmem : key ∈ l.map Prod.fst
  · simpa [hmem] using h
  · simp [hmem, List.nodup_append, h]

theorem nodup_keys_buildBreakdown (f : QuestionAnalysis → List String)
    (analyses : List QuestionAnalysis) :
    ((buildBreakdown f analyses).map Prod.fst).Nodup := by
  unfold buildBreakdown
  refine foldl_preserve (fun (l : List (String × BD)) => (l.map Prod.fst).Nodup) _ ?_ analyses [] (by simp)
  intro acc a hacc
  refine foldl_preserve (fun (l : List (String × BD)) => (l.map Prod.fst).Nodup) _ ?_ (f a) acc hacc
  intro acc2 key h2
  exact nodup_keys_upsertBD key a.isCorrect h2

theorem total_pos_upsertBD (key : String) (ic : Bool) {l : List (String × BD)}
    (h : ∀ e ∈ l, 1 ≤ (e : String × BD).2.total) :
    ∀ e ∈ upsertBD key ic l, 1 ≤ e.2.total := by
  induction l with
  | nil =>
    intro e he
    simp only [upsertBD, List.mem_singleton] at he
    subst he
    simp [bumpBD]
  | cons p rest ih =>
    obtain ⟨k, b⟩ := p
    intro e he
    unfold upsertBD at he
    by_cases hk : k = key
    · simp only [if_pos hk, List.mem_cons] at he
      rcases he with rfl | he
      · simp [bumpBD]
      · exact h e (List.mem_cons_of_mem _ he)
    · simp only [if_neg hk, List.mem_cons] at he
      rcases he with rfl | he
      · exact h (k, b) (List.mem_cons_self _ _)
      · exact ih (fun x hx => h x (List.mem_cons_of_mem _ hx)) e he

theorem total_pos_buildBreakdown (f : QuestionAnalysis → List String)
    (analyses : List QuestionAnalysis) :
    ∀ e ∈ buildBreakdown f analyses, 1 ≤ (e : String × BD).2.total := by
  unfold buildBreakdown
  refine foldl_preserve (fun (l : List (String × BD)) => ∀ e ∈ l, 1 ≤ e.2.total)
    _ ?_ analyses [] (by simp)
  intro acc a hacc
  refine foldl_preserve (fun (l : List (String × BD)) => ∀ e ∈ l, 1 ≤ e.2.total)
    _ ?_ (f a) acc hacc
  intro acc2 key h2
  exact total_pos_upsertBD key a.isCorrect h2

theorem keys_withAccuracy (l : List (String × BD)) :
    (withAccuracy l).map Prod.fst = l.map Prod.fst := by
  unfold withAccuracy
  rw [List.map_map]
  rfl

theorem mem_withAccuracy {l : List (String × BD)} {e : String × BD}
    (he : e ∈ withAccuracy l) :
    ∃ b0 : BD, (e.1, b0) ∈ l ∧
      e.2 = { b0 with accuracy := (b0.correct : ℚ) / (b0.total : ℚ) * 100 } := by
  unfold withAccuracy at he
  obtain ⟨p, hp, hpe⟩ := List.mem_map.1 he
  exact ⟨p.2, by simpa [← hpe] using hp, by simp [← hpe]⟩

theorem accuracy_withAccuracy {l : List (String × BD)} {e : String × BD}
    (he : e ∈ withAccuracy l) :
    e.2.accuracy = (e.2.correct : ℚ) / (e.2.total : ℚ) * 100 := by
  obtain ⟨b0, _, hb⟩ := mem_withAccuracy he
  rw [hb]

theorem total_pos_withAccuracy {l : List (String × BD)}
    (h : ∀ e ∈ l, 1 ≤ (e : String × BD).2.total) :
    ∀ e ∈ withAccuracy l, 1 ≤ e.2.total := by
  intro e he
  obtain ⟨b0, hb0, hb⟩ := mem_withAccuracy he
  have := h (e.1, b0) hb0
  rw [hb]
  exact this

theorem eq_of_keys_nodup {l : List (String × BD)} (h : (l.map Prod.fst).Nodup)
    {s : String} {b₁ b₂ : BD} (h₁ : (s, b₁) ∈ l) (h₂ : (s, b₂) ∈ l) : b₁ = b₂ := by
  induction l with
  | nil => cases h₁
  | cons e rest ih =>
    rw [List.map_cons, List.nodup_cons] at h
    rcases List.mem_cons.1 h₁ with he₁ | h₁
    · rcases List.mem_cons.1 h₂ with he₂ | h₂
      · have : (s, b₁) = (s, b₂) := he₁.trans he₂.symm
        exact congrArg Prod.snd this
      · exfalso
        apply h.1
        rw [← he₁]
        exact List.mem_map.2 ⟨(s, b₂), h₂, rfl⟩
    · rcases List.mem_cons.1 h₂ with he₂ | h₂
      · exfalso
        apply h.1
        rw [← he₂]
        exact List.mem_map.2 ⟨(s, b₁), h₁, rfl⟩
      · exact ih h.2 h₁ h₂

/-! ## Membership in the weak/strong passes -/

theorem mem_weakPre {sb : List (String × BD)} {e : AreaEntry} :
    e ∈ weakPre sb ↔ ∃ p : String × BD, p ∈ sb ∧ (2 ≤ p.2.total ∧ p.2.accuracy < 70) ∧
      e = ⟨p.1, p.2.accuracy, p.2.total⟩ := by
  unfold weakPre
  simp only [List.mem_map, List.mem_filter, Bool.and_eq_true, decide_eq_true_eq]
  constructor
  · rintro ⟨p, ⟨hp, hc⟩, rfl⟩
    exact ⟨p, hp, hc, rfl⟩
  · rintro ⟨p, hp, hc, rfl⟩
    exact ⟨p, ⟨hp, hc⟩, rfl⟩

theorem mem_strongPre {sb : List (String × BD)} {e : AreaEntry} :
    e ∈ strongPre sb ↔ ∃ p : String × BD, p ∈ sb ∧ (2 ≤ p.2.total ∧ 85 ≤ p.2.accuracy) ∧
      e = ⟨p.1, p.2.accuracy, p.2.total⟩ := by
  unfold strongPre
  simp only [List.mem_map, List.mem_filter, Bool.and_eq_true, Bool.not_eq_eq_eq_not,
    Bool.not_true, decide_eq_true_eq, decide_eq_false_iff_not]
  constructor
  · rintro ⟨p, ⟨hp, hc⟩, rfl⟩
    exact ⟨p, hp, ⟨hc.1.1, hc.2⟩, rfl⟩
  · rintro ⟨p, hp, hc, rfl⟩
    refine ⟨p, ⟨hp, ⟨hc.1, ?_⟩, hc.2⟩, rfl⟩
    linarith [hc.2]

theorem serviceBreakdownOf_nodup_keys (analyses : List QuestionAnalysis) :
    ((serviceBreakdownOf analyses).map Prod.fst).Nodup := by
  unfold serviceBreakdownOf
  rw [keys_withAccuracy]
  exact nodup_keys_buildBreakdown _ _

theorem domainBreakdownOf_nodup_keys (analyses : List QuestionAnalysis) :
    ((domainBreakdownOf analyses).map Prod.fst).Nodup := by
  unfold domainBreakdownOf
  rw [keys_withAccuracy]
  exact nodup_keys_buildBreakdown _ _

/-! ## Projections of `generateSummary` -/

theorem generateSummary_weakAreas (analyses : List QuestionAnalysis) :
    (generateSummary analyses).weakAreas = weakAreasOf analyses := rfl

theorem generateSummary_strongAreas (analyses : List QuestionAnalysis) :
    (generateSummary analyses).strongAreas = strongAreasOf analyses := rfl

theorem generateSummary_serviceBreakdown (analyses : List QuestionAnalysis) :
    (generateSummary analyses).serviceBreakdown = serviceBreakdownOf analyses := rfl

theorem generateSummary_domainBreakdown (analyses : List QuestionAnalysis) :
    (generateSummary analyses).domainBreakdown = domainBreakdownOf analyses := rfl

theorem generateSummary_accuracy (analyses : List QuestionAnalysis) :
    (generateSummary analyses).accuracy = overallAccuracy analyses := rfl

theorem generateSummary_topKeywords (analyses : List QuestionAnalysis) :
    (generateSummary analyses).topKeywords = topKeywordsOf analyses := rfl

theorem generateSummary_recommendations (analyses : List QuestionAnalysis) :
    (generateSummary analyses).recommendations =
      generateRecommendations (summaryBase analyses) analyses := rfl

/-! ## Claim C4 -/

/-- Claim C4: for every analyses sequence, `generateSummary` puts a
category into `weakAreas` iff its service breakdown entry has
`total ≥ 2` and `accuracy < 70`, and into `strongAreas` iff `total ≥ 2`
and `accuracy ≥ 85`; `weakAreas` is sorted ascending and `strongAreas`
descending by accuracy; and no entry with fewer than 2 observations
appears in either list. -/
theorem c4_weak_strong_areas (analyses : List QuestionAnalysis) :
    (∀ s b, (s, b) ∈ (generateSummary analyses).serviceBreakdown →
      (((∃ e ∈ (generateSummary analyses).weakAreas, e.service = s) ↔
          (2 ≤ b.total ∧ b.accuracy < 70)) ∧
       ((∃ e ∈ (generateSummary analyses).strongAreas, e.service = s) ↔
          (2 ≤ b.total ∧ 85 ≤ b.accuracy)))) ∧
    (generateSummary analyses).weakAreas.Pairwise (fun a b => a.accuracy ≤ b.accuracy) ∧
    (generateSummary analyses).strongAreas.Pairwise (fun a b => b.accuracy ≤ a.accuracy) ∧
    (∀ e ∈ (generateSummary analyses).weakAreas, 2 ≤ e.questionsReviewed) ∧
    (∀ e ∈ (generateSummary analyses).strongAreas, 2 ≤ e.questionsReviewed) := by
  rw [generateSummary_weakAreas, generateSummary_strongAreas,
    generateSummary_serviceBreakdown]
  have hpermW := stableSortAsc_perm (fun e : AreaEntry => e.accuracy)
    (weakPre (serviceBreakdownOf analyses))
  have hpermS := stableSortDesc_perm (fun e : AreaEntry => e.accuracy)
    (strongPre (serviceBreakdownOf analyses))
  have hnodup := serviceBreakdownOf_nodup_keys analyses
  refine ⟨?_, ?_, ?_, ?_, ?_⟩
  · intro s b hmem
    constructor
    · constructor
      · rintro ⟨e, he, hes⟩
        have he2 : e ∈ weakPre (serviceBreakdownOf analyses) := by
          rw [weakAreasOf] at he
          exact hpermW.mem_iff.1 he
        obtain ⟨p, hp, hc, hep⟩ := mem_weakPre.1 he2
        have hps : p.1 = s := by rw [hep] at hes; exact hes
        have : p.2 = b := by
          refine eq_of_keys_nodup hnodup ?_ hmem
          rw [← hps]
          exact hp
        rw [← this]
        exact hc
      · intro hc
        refine ⟨⟨s, b.accuracy, b.total⟩, ?_, rfl⟩
        rw [weakAreasOf]
        refine hpermW.mem_iff.2 (mem_weakPre.2 ⟨(s, b), hmem, hc, rfl⟩)
    · constructor
      · rintro ⟨e, he, hes⟩
        have he2 : e ∈ strongPre (serviceBreakdownOf analyses) := by
          rw [strongAreasOf] at he
          exact hpermS.mem_iff.1 he
        obtain ⟨p, hp, hc, hep⟩ := mem_strongPre.1 he2
        have hps : p.1 = s := by rw [hep] at hes; exact hes
        have : p.2 = b := by
          refine eq_of_keys_nodup hnodup ?_ hmem
          rw [← hps]
          exact hp
        rw [← this]
        exact hc
      · intro hc
        refine ⟨⟨s, b.accuracy, b.total⟩, ?_, rfl⟩
        rw [strongAreasOf]
        exact hpermS.mem_iff.2 (mem_strongPre.2 ⟨(s, b), hmem, hc, rfl⟩)
  · exact pairwise_stableSortAsc _ _
  · exact pairwise_stableSortDesc _ _
  · intro e he
    rw [weakAreasOf] at he
    obtain ⟨p, _, hc, hep⟩ := mem_weakPre.1 (hpermW.mem_iff.1 he)
    rw [hep]
    exact hc.1
  · intro e he
    rw [strongAreasOf] at he
    obtain ⟨p, _, hc, hep⟩ := mem_strongPre.1 (hpermS.mem_iff.1 he)
    rw [hep]
    exact hc.1

/-- An empty parsed record used by concrete example analyses. -/
def emptyParsed : ParsedQuestion :=
  { question := "", options := [], yourAnswer := "", correctAnswer := "",
    explanation := "", rawText := "" }

/-- Scenario-2-style input: two analyses tagging IAM, one correct, one not. -/
def exampleAnalysesIAM : List QuestionAnalysis :=
  [{ file := "q1.png", parsed := emptyParsed,
     tags := { services := ["IAM"], domains := [], keywords := [] }, isCorrect := true },
   { file := "q2.png", parsed := emptyParsed,
     tags := { services := ["IAM"], domains := [], keywords := [] }, isCorrect := false }]

/-- Witness for C4 at a concrete input: the IAM entry has total 2 and
accuracy 50, so IAM appears in `weakAreas`. -/
theorem c4_weak_strong_areas_witness :
    ("IAM", (⟨2, 1, 1, 50⟩ : BD)) ∈ (generateSummary exampleAnalysesIAM).serviceBreakdown ∧
    (∃ e ∈ (generateSummary exampleAnalysesIAM).weakAreas, e.service = "IAM") := by
  have hmem : ("IAM", (⟨2, 1, 1, 50⟩ : BD)) ∈
      (generateSummary exampleAnalysesIAM).serviceBreakdown := by
    with_unfolding_all decide
  refine ⟨hmem, ?_⟩
  exact ((c4_weak_strong_areas exampleAnalysesIAM).1 "IAM" ⟨2, 1, 1, 50⟩ hmem).1.2
    ⟨by norm_num, by norm_num⟩

/-! ## Claim C5 -/

/-- Claim C5: the overall accuracy equals `correct/total*100` when
`total > 0` and `0` otherwise, and every service/domain breakdown entry
has `total ≥ 1` and `accuracy = correct/total*100`, so the division is
never by zero. -/
theorem c5_accuracy_formula (analyses : List QuestionAnalysis) :
    ((generateSummary analyses).accuracy =
      if 0 < (generateSummary analyses).totalQuestions then
        ((generateSummary analyses).correctCount : ℚ) /
          ((generateSummary analyses).totalQuestions : ℚ) * 100
      else 0) ∧
    (∀ s b, (s, b) ∈ (generateSummary analyses).serviceBreakdown →
      1 ≤ b.total ∧ b.accuracy = (b.correct : ℚ) / (b.total : ℚ) * 100) ∧
    (∀ d b, (d, b) ∈ (generateSummary analyses).domainBreakdown →
      1 ≤ b.total ∧ b.accuracy = (b.correct : ℚ) / (b.total : ℚ) * 100) := by
  refine ⟨rfl, ?_, ?_⟩
  · intro s b hmem
    rw [generateSummary_serviceBreakdown] at hmem
    unfold serviceBreakdownOf at hmem
    exact ⟨total_pos_withAccuracy (total_pos_buildBreakdown _ _) (s, b) hmem,
      accuracy_withAccuracy hmem⟩
  · intro d b hmem
    rw [generateSummary_domainBreakdown] at hmem
    unfold domainBreakdownOf at hmem
    exact ⟨total_pos_withAccuracy (total_pos_buildBreakdown _ _) (d, b) hmem,
      accuracy_withAccuracy hmem⟩

/-- Witness for C5 at a concrete input. -/
theorem c5_accuracy_formula_witness :
    1 ≤ (2 : Nat) ∧ (50 : ℚ) = ((1 : Nat) : ℚ) / ((2 : Nat) : ℚ) * 100 := by
  have hmem : ("IAM", (⟨2, 1, 1, 50⟩ : BD)) ∈
      (generateSummary exampleAnalysesIAM).serviceBreakdown := by
    with_unfolding_all decide
  exact (c5_accuracy_formula exampleAnalysesIAM).2.1 "IAM" ⟨2, 1, 1, 50⟩ hmem

/-! ## Claim C10 -/

theorem countCorrect_add_countIncorrect :
    ∀ (l : List QuestionAnalysis) (a b : Nat),
      l.foldl (fun n x => if x.isCorrect then n + 1 else n) a +
        l.foldl (fun n x => if x.isCorrect then n else n + 1) b = a + b + l.length := by
  intro l
  induction l with
  | nil => intro a b; simp
  | cons x xs ih =>
    intro a b
    simp only [List.foldl_cons, List.length_cons]
    by_cases h : x.isCorrect
    · simp only [if_pos h]
      rw [ih (a + 1) b]
      ring
    · simp only [if_neg h]
      rw [ih a (b + 1)]
      ring

theorem countCorrect_le :
    ∀ (l : List QuestionAnalysis) (a : Nat),
      l.foldl (fun n x => if x.isCorrect then n + 1 else n) a ≤ a + l.length := by
  intro l
  induction l with
  | nil => intro a; simp
  | cons x xs ih =>
    intro a
    simp only [List.foldl_cons, List.length_cons]
    by_cases h : x.isCorrect
    · simp only [if_pos h]
      calc xs.foldl (fun n x => if x.isCorrect then n + 1 else n) (a + 1)
          ≤ (a + 1) + xs.length := ih (a + 1)
        _ = a + (xs.length + 1) := by ring
    · simp only [if_neg h]
      calc xs.foldl (fun n x => if x.isCorrect then n + 1 else n) a
          ≤ a + xs.length := ih a
        _ ≤ a + (xs.length + 1) := by omega

/-- Claim C10: every analysis is counted exactly once as correct or
incorrect, `totalQuestions` is the input length, and the overall accuracy
lies in `[0, 100]`. -/
theorem c10_count_invariant (analyses : List QuestionAnalysis) :
    (generateSummary analyses).correctCount + (generateSummary analyses).incorrectCount =
      (generateSummary analyses).totalQuestions ∧
    (generateSummary analyses).totalQuestions = analyses.length ∧
    0 ≤ (generateSummary analyses).accuracy ∧ (generateSummary analyses).accuracy ≤ 100 := by
  refine ⟨?_, rfl, ?_, ?_⟩
  · show countCorrect analyses + countIncorrect analyses = analyses.length
    unfold countCorrect countIncorrect
    rw [countCorrect_add_countIncorrect analyses 0 0]
    omega
  · show 0 ≤ overallAccuracy analyses
    unfold overallAccuracy
    by_cases h : 0 < analyses.length
    · rw [if_pos h]
      positivity
    · rw [if_neg h]
  · show overallAccuracy analyses ≤ 100
    unfold overallAccuracy
    by_cases h : 0 < analyses.length
    · rw [if_pos h]
      have h0 : countCorrect analyses ≤ analyses.length := by
        have := countCorrect_le analyses 0
        unfold countCorrect
        omega
      have hle : (countCorrect analyses : ℚ) ≤ (analyses.length : ℚ) := by
        exact_mod_cast h0
      have hpos : (0 : ℚ) < (analyses.length : ℚ) := by exact_mod_cast h
      calc (countCorrect analyses : ℚ) / (analyses.length : ℚ) * 100
          ≤ 1 * 100 := by
            apply mul_le_mul_of_nonneg_right _ (by norm_num)
            exact (div_le_one hpos).2 hle
        _ = 100 := by norm_num
    · rw [if_neg h]
      norm_num

/-! ## Claim C6 -/

theorem bucket_of (acc : ℚ) :
    (85 ≤ acc → getStatus acc = "Strong" ∧ getHeatColor acc = "#22c55e") ∧
    (70 ≤ acc → acc < 85 → getStatus acc = "Good" ∧ getHeatColor acc = "#eab308") ∧
    (50 ≤ acc → acc < 70 → getStatus acc = "Review" ∧ getHeatColor acc = "#f97316") ∧
    (acc < 50 → getStatus acc = "Weak" ∧ getHeatColor acc = "#ef4444") := by
  unfold getStatus getHeatColor
  refine ⟨?_, ?_, ?_, ?_⟩
  · intro h
    rw [if_pos h, if_pos h]
    exact ⟨rfl, rfl⟩
  · intro h1 h2
    rw [if_neg (by linarith), if_pos h1, if_neg (by linarith), if_pos h1]
    exact ⟨rfl, rfl⟩
  · intro h1 h2
    rw [if_neg (by linarith), if_neg (by linarith), if_pos h1,
      if_neg (by linarith), if_neg (by linarith), if_pos h1]
    exact ⟨rfl, rfl⟩
  · intro h
    rw [if_neg (by linarith), if_neg (by linarith), if_neg (by linarith),
      if_neg (by linarith), if_neg (by linarith), if_neg (by linarith)]
    exact ⟨rfl, rfl⟩

/-- Claim C6: the heatmap has exactly one item per category of the service
breakdown (the multiset of item services equals the breakdown keys), is
sorted ascending by accuracy, and status/color are bucketed by the
inclusive lower bounds 85/70/50. -/
theorem c6_heatmap (summary : StudySummary) :
    List.Perm ((generateHeatmapData summary).map (fun h => h.service))
      (summary.serviceBreakdown.map Prod.fst) ∧
    (generateHeatmapData summary).Pairwise (fun a b => a.accuracy ≤ b.accuracy) ∧
    ∀ item ∈ generateHeatmapData summary,
      (85 ≤ item.accuracy → item.status = "Strong" ∧ item.color = "#22c55e") ∧
      (70 ≤ item.accuracy → item.accuracy < 85 →
        item.status = "Good" ∧ item.color = "#eab308") ∧
      (50 ≤ item.accuracy → item.accuracy < 70 →
        item.status = "Review" ∧ item.color = "#f97316") ∧
      (item.accuracy < 50 → item.status = "Weak" ∧ item.color = "#ef4444") := by
  refine ⟨?_, pairwise_stableSortAsc _ _, ?_⟩
  · have hp := (stableSortAsc_perm (fun h : HeatmapItem => h.accuracy)
      (summary.serviceBreakdown.map (fun e =>
        ({ service := e.1, accuracy := e.2.accuracy, total := e.2.total,
           color := getHeatColor e.2.accuracy,
           status := getStatus e.2.accuracy } : HeatmapItem)))).map
      (fun h : HeatmapItem => h.service)
    unfold generateHeatmapData
    rw [List.map_map] at hp
    exact hp
  · intro item hitem
    have hmem : item ∈ summary.serviceBreakdown.map (fun e =>
        ({ service := e.1, accuracy := e.2.accuracy, total := e.2.total,
           color := getHeatColor e.2.accuracy,
           status := getStatus e.2.accuracy } : HeatmapItem)) := by
      unfold generateHeatmapData at hitem
      exact (stableSortAsc_perm _ _).mem_iff.1 hitem
    obtain ⟨e, _, he⟩ := List.mem_map.1 hmem
    have hacc : item.accuracy = e.2.accuracy := by rw [← he]
    have hst : item.status = getStatus e.2.accuracy := by rw [← he]
    have hco : item.color = getHeatColor e.2.accuracy := by rw [← he]
    rw [hacc, hst, hco]
    exact bucket_of e.2.accuracy

/-- Witness for C6 at a concrete input: the IAM entry with accuracy 50 is
projected to a "Review"/orange heatmap item. -/
theorem c6_heatmap_witness :
    ∃ item ∈ generateHeatmapData (generateSummary exampleAnalysesIAM),
      item.status = "Review" ∧ item.color = "#f97316" := by
  have hmem : (⟨"IAM", 50, 2, "#f97316", "Review"⟩ : HeatmapItem) ∈
      generateHeatmapData (generateSummary exampleAnalysesIAM) := by
    with_unfolding_all decide
  exact ⟨_, hmem,
    ((c6_heatmap (generateSummary exampleAnalysesIAM)).2.2 _ hmem).2.2.1
      (by norm_num) (by norm_num)⟩

/-! ## Claim C7 -/

/-- Claim C7: `topKeywords` has length at most 15, is sorted descending by
count, and keywords of equal count appear in the first-seen order of the
keyword counting structure (the filtered subsequence at each count is a
prefix of the corresponding subsequence of the first-seen frequency
list). -/
theorem c7_top_keywords (analyses : List QuestionAnalysis) :
    (generateSummary analyses).topKeywords.length ≤ 15 ∧
    (generateSummary analyses).topKeywords.Pairwise (fun a b => b.count ≤ a.count) ∧
    ∀ n : Nat, List.IsPrefix
      ((generateSummary analyses).topKeywords.filter (fun e => decide (e.count = n)))
      ((keywordFreqs analyses).filter (fun e => decide (e.count = n))) := by
  rw [generateSummary_topKeywords]
  unfold topKeywordsOf
  refine ⟨List.length_take_le _ _, ?_, ?_⟩
  · exact List.Pairwise.sublist (List.take_sublist _ _)
      (pairwise_stableSortDesc (fun e : KeywordFreq => e.count) (keywordFreqs analyses))
  · intro n
    have hpre : List.IsPrefix
        ((stableSortDesc (fun e : KeywordFreq => e.count) (keywordFreqs analyses)).take 15)
        (stableSortDesc (fun e : KeywordFreq => e.count) (keywordFreqs analyses)) :=
      List.take_prefix _ _
    have hfil := hpre.filter (fun e => decide (e.count = n))
    have heq : (stableSortDesc (fun e : KeywordFreq => e.count)
        (keywordFreqs analyses)).filter (fun e => decide (e.count = n)) =
        (keywordFreqs analyses).filter (fun e => decide (e.count = n)) :=
      filter_stableSortDesc (fun e : KeywordFreq => e.count) n (keywordFreqs analyses)
    rw [heq] at hfil
    exact hfil

/-! ## Claim C8 -/

theorem data_head?_append (s t : String) (c : Char) (h : s.data.head? = some c) :
    (s ++ t).data.head? = some c := by
  rw [String.data_append]
  cases hs : s.data with
  | nil => rw [hs] at h; cases h
  | cons a as =>
    rw [hs] at h
    simpa using h

theorem fundamentalsMsg_head : fundamentalsMsg.data.head? = some '📚' := by decide

theorem onTrackMsg_head : onTrackMsg.data.head? = some '📈' := by
  unfold onTrackMsg
  exact data_head?_append _ _ _ (data_head?_append _ _ _ (by decide))

theorem examReadyMsg_head : examReadyMsg.data.head? = some '🎯' := by
  unfold examReadyMsg
  exact data_head?_append _ _ _ (data_head?_append _ _ _ (by decide))

theorem priorityMsg_head (names : List String) :
    (priorityMsg names).data.head? = some '⚠' := by
  unfold priorityMsg
  exact data_head?_append _ _ _ (by decide)

theorem deepDiveMsg_head (domain : String) (acc : ℚ) :
    (deepDiveMsg domain acc).data.head? = some '🔍' := by
  unfold deepDiveMsg
  exact data_head?_append _ _ _ (data_head?_append _ _ _ (data_head?_append _ _ _
    (data_head?_append _ _ _ (by decide))))

theorem ne_of_data_head {s t : String} {c d : Char} (hc : s.data.head? = some c)
    (hd : t.data.head? = some d) (hne : c ≠ d) : s ≠ t := by
  intro h
  rw [h, hd] at hc
  exact hne (Option.some.inj hc).symm

/-- A banding message is one of the three overall-performance strings. -/
def IsBandingMsg (m : String) : Prop :=
  m = fundamentalsMsg ∨ m = onTrackMsg ∨ m = examReadyMsg

theorem banding_head {m : String} (hm : IsBandingMsg m) :
    m.data.head? = some '📚' ∨ m.data.head? = some '📈' ∨ m.data.head? = some '🎯' := by
  rcases hm with rfl | rfl | rfl
  · exact Or.inl fundamentalsMsg_head
  · exact Or.inr (Or.inl onTrackMsg_head)
  · exact Or.inr (Or.inr examReadyMsg_head)

theorem banding_not_mem_weakRecs {m : String} (hm : IsBandingMsg m)
    (summary : StudySummary) : m ∉ weakRecs summary := by
  intro h
  unfold weakRecs at h
  split at h
  · rw [List.mem_singleton] at h
    rcases banding_head hm with hh | hh | hh <;>
      exact absurd rfl (h ▸ ne_of_data_head (priorityMsg_head _) hh (by decide)).symm
  · cases h

theorem banding_not_mem_domainRecs {m : String} (hm : IsBandingMsg m)
    (summary : StudySummary) : m ∉ domainRecs summary := by
  intro h
  unfold domainRecs at h
  obtain ⟨e, _, he⟩ := List.mem_map.1 h
  rcases banding_head hm with hh | hh | hh <;>
    exact absurd rfl (he ▸ ne_of_data_head (deepDiveMsg_head _ _) hh (by decide)).symm

theorem banding_not_mem_securityRecs {m : String} (hm : IsBandingMsg m)
    (analyses : List QuestionAnalysis) : m ∉ securityRecs analyses := by
  intro h
  simp only [securityRecs] at h
  split at h
  · rw [List.mem_singleton] at h
    rcases hm with rfl | rfl | rfl <;> exact absurd h.symm (by decide)
  · cases h

theorem banding_not_mem_serverlessRecs {m : String} (hm : IsBandingMsg m)
    (analyses : List QuestionAnalysis) : m ∉ serverlessRecs analyses := by
  intro h
  simp only [serverlessRecs] at h
  split at h
  · rw [List.mem_singleton] at h
    rcases hm with rfl | rfl | rfl <;> exact absurd h.symm (by decide)
  · cases h

theorem banding_not_mem_studyRecs {m : String} (hm : IsBandingMsg m)
    (summary : StudySummary) : m ∉ studyRecs summary := by
  intro h
  unfold studyRecs at h
  split at h
  · rw [List.mem_singleton] at h
    rcases hm with rfl | rfl | rfl <;> exact absurd h.symm (by decide)
  · cases h

/-- A banding message occurs in the recommendations iff it occurs in the
overall-performance segment. -/
theorem banding_mem_iff {m : String} (hm : IsBandingMsg m)
    (summary : StudySummary) (analyses : List QuestionAnalysis) :
    (m ∈ generateRecommendations summary analyses ↔ m ∈ overallRecs summary) := by
  unfold generateRecommendations
  simp only [List.mem_append]
  constructor
  · rintro (((((h | h) | h) | h) | h) | h)
    · exact h
    · exact absurd h (banding_not_mem_weakRecs hm summary)
    · exact absurd h (banding_not_mem_domainRecs hm summary)
    · exact absurd h (banding_not_mem_securityRecs hm analyses)
    · exact absurd h (banding_not_mem_serverlessRecs hm analyses)
    · exact absurd h (banding_not_mem_studyRecs hm summary)
  · intro h
    exact Or.inl (Or.inl (Or.inl (Or.inl (Or.inl h))))

theorem fundamentalsMsg_ne_onTrackMsg : fundamentalsMsg ≠ onTrackMsg := by decide

theorem fundamentalsMsg_ne_examReadyMsg : fundamentalsMsg ≠ examReadyMsg := by decide

theorem onTrackMsg_ne_examReadyMsg : onTrackMsg ≠ examReadyMsg := by decide

/-- Claim C8: the fundamentals message is emitted iff accuracy < 60, the
on-track message iff accuracy is in [60, 75), the exam-ready message iff
accuracy ≥ 85, and no overall-performance message for accuracy in
[75, 85). -/
theorem c8_recommendation_banding (analyses : List QuestionAnalysis) :
    (fundamentalsMsg ∈ (generateSummary analyses).recommendations ↔
      (generateSummary analyses).accuracy < 60) ∧
    (onTrackMsg ∈ (generateSummary analyses).recommendations ↔
      (60 ≤ (generateSummary analyses).accuracy ∧ (generateSummary analyses).accuracy < 75)) ∧
    (examReadyMsg ∈ (generateSummary analyses).recommendations ↔
      85 ≤ (generateSummary analyses).accuracy) ∧
    (75 ≤ (generateSummary analyses).accuracy → (generateSummary analyses).accuracy < 85 →
      fundamentalsMsg ∉ (generateSummary analyses).recommendations ∧
      onTrackMsg ∉ (generateSummary analyses).recommendations ∧
      examReadyMsg ∉ (generateSummary analyses).recommendations) := by
  rw [generateSummary_recommendations, generateSummary_accuracy]
  have hacc : (summaryBase analyses).accuracy = overallAccuracy analyses := rfl
  have hf := banding_mem_iff (Or.inl rfl) (summaryBase analyses) analyses
  have ht := banding_mem_iff (Or.inr (Or.inl rfl)) (summaryBase analyses) analyses
  have he := banding_mem_iff (Or.inr (Or.inr rfl)) (summaryBase analyses) analyses
  rw [hf, ht, he]
  unfold overallRecs
  rw [hacc]
  refine ⟨?_, ?_, ?_, ?_⟩
  · by_cases h1 : overallAccuracy analyses < 60
    · simp [h1]
    · by_cases h2 : overallAccuracy analyses < 75
      · simp [h1, h2, fundamentalsMsg_ne_onTrackMsg]
      · by_cases h3 : 85 ≤ overallAccuracy analyses
        · simp [h1, h2, h3, fundamentalsMsg_ne_examReadyMsg]
        · simp [h1, h2, h3]
  · by_cases h1 : overallAccuracy analyses < 60
    · simp only [if_pos h1, List.mem_singleton]
      constructor
      · intro h
        exact absurd h.symm fundamentalsMsg_ne_onTrackMsg
      · intro h
        linarith [h.1]
    · by_cases h2 : overallAccuracy analyses < 75
      · simp only [if_neg h1, if_pos h2, List.mem_singleton]
        constructor
        · intro _
          exact ⟨by linarith [le_of_not_lt h1], h2⟩
        · intro _
          trivial
      · by_cases h3 : 85 ≤ overallAccuracy analyses
        · simp only [if_neg h1, if_neg h2, if_pos h3, List.mem_singleton]
          constructor
          · intro h
            exact absurd h onTrackMsg_ne_examReadyMsg
          · intro h
            linarith [h.2]
        · simp only [if_neg h1, if_neg h2, if_neg h3, List.not_mem_nil]
          constructor
          · intro h
            cases h
          · intro h
            linarith [h.2]
  · by_cases h1 : overallAccuracy analyses < 60
    · simp only [if_pos h1, List.mem_singleton]
      constructor
      · intro h
        exact absurd h.symm fundamentalsMsg_ne_examReadyMsg
      · intro h
        linarith
    · by_cases h2 : overallAccuracy analyses < 75
      · simp only [if_neg h1, if_pos h2, List.mem_singleton]
        constructor
        · intro h
          exact absurd h onTrackMsg_ne_examReadyMsg.symm
        · intro h
          linarith
      · by_cases h3 : 85 ≤ overallAccuracy analyses
        · simp [h1, h2, h3]
        · simp only [if_neg h1, if_neg h2, if_neg h3, List.not_mem_nil]
          constructor
          · intro h
            cases h
          · intro h
            exact absurd h h3
  · intro hge hlt
    rw [if_neg (by linarith), if_neg (by linarith), if_neg (by linarith)]
    exact ⟨List.not_mem_nil _, List.not_mem_nil _, List.not_mem_nil _⟩

/-- Five analyses, four of them correct: accuracy 80, inside the [75, 85)
gap of the banding. -/
def exampleAnalysesGap : List QuestionAnalysis :=
  [{ file := "a.png", parsed := emptyParsed,
     tags := { services := [], domains := [], keywords := [] }, isCorrect := true },
   { file := "b.png", parsed := emptyParsed,
     tags := { services := [], domains := [], keywords := [] }, isCorrect := true },
   { file := "c.png", parsed := emptyParsed,
     tags := { services := [], domains := [], keywords := [] }, isCorrect := true },
   { file := "d.png", parsed := emptyParsed,
     tags := { services := [], domains := [], keywords := [] }, isCorrect := true },
   { file := "e.png", parsed := emptyParsed,
     tags := { services := [], domains := [], keywords := [] }, isCorrect := false }]

/-- Witness for C8 at a concrete input with accuracy 80: no
overall-performance message is emitted. -/
theorem c8_recommendation_banding_witness :
    fundamentalsMsg ∉ (generateSummary exampleAnalysesGap).recommendations ∧
    onTrackMsg ∉ (generateSummary exampleAnalysesGap).recommendations ∧
    examReadyMsg ∉ (generateSummary exampleAnalysesGap).recommendations :=
  (c8_recommendation_banding exampleAnalysesGap).2.2.2
    (by show (75 : ℚ) ≤ overallAccuracy exampleAnalysesGap; with_unfolding_all decide)
    (by show overallAccuracy exampleAnalysesGap < (85 : ℚ); with_unfolding_all decide)

/-! ## Claim C9 -/

/-- Claim C9: a recognition failure does not abort the batch: every item
(by position) is processed to a record, and a failed item yields empty
parsed fields, an error marker in `rawText`, empty tags and
`isCorrect = false`. -/
theorem c9_failure_isolation (items : List (String × Except String String)) :
    (processBatch items).length = items.length ∧
    (∀ i : Nat, (processBatch items)[i]? =
      (items[i]?).map (fun it => processImage it.1 it.2)) ∧
    (∀ fileName msg, processImage fileName (Except.error msg) =
      { file := fileName
        parsed := { question := "", options := [], yourAnswer := "", correctAnswer := "",
                    explanation := "", rawText := "Error: " ++ msg }
        tags := { services := [], domains := [], keywords := [] }
        isCorrect := false }) := by
  refine ⟨by simp [processBatch], ?_, ?_⟩
  · intro i
    simp [processBatch, List.getElem?_map]
  · intro fileName msg
    rfl

/-! ## Claim C1 -/

/-- The Scenario-1 input text from the specification. -/
def scenario1Text : String :=
  "Question: What is S3? A) Object storage B) Block storage Your Answer: A Correct Answer: A Explanation: S3 is object storage."

set_option maxRecDepth 4000 in
/-- Claim C1 evaluated on the code: question, answers, isCorrect and the
S3 tag come out as claimed, but the options are not
["A: Object storage", "B: Block storage"]: the unanchored case-insensitive
option regex first matches the letter a inside "What" and its [^\n]+
swallows the rest of the single-line text, producing one garbage option. -/
theorem c1_scenario1_evaluation :
    (parseQuestion scenario1Text).question = "What is S3?" ∧
    (parseQuestion scenario1Text).yourAnswer = "A" ∧
    (parseQuestion scenario1Text).correctAnswer = "A" ∧
    isCorrectOf (parseQuestion scenario1Text) = true ∧
    "S3" ∈ (tagQuestion scenario1Text).services ∧
    (parseQuestion scenario1Text).options =
      ["a: t is S3? A) Object storage B) Block storage Your Answer: A Correct Answer: A Explanation: S3 is object storage."] ∧
    (parseQuestion scenario1Text).options ≠ ["A: Object storage", "B: Block storage"] := by
  refine ⟨?_, ?_, ?_, ?_, ?_, ?_, ?_⟩ <;> decide

/-! ## Claim C2 -/

/-- Claim C2 counterexample: "hello world" contains neither answer label
(the two answer regexes find no match), parseQuestion yields empty
answers, and the isCorrect flag computed for that analysis is `true`
(empty equals empty), not `false` as claimed. -/
theorem c2_counterexample :
    findAnswer "your".data (normalizeChars "hello world".data) = none ∧
    findAnswer "correct".data (normalizeChars "hello world".data) = none ∧
    (parseQuestion "hello world").yourAnswer = "" ∧
    (parseQuestion "hello world").correctAnswer = "" ∧
    isCorrectOf (parseQuestion "hello world") = true := by
  refine ⟨?_, ?_, ?_, ?_, ?_⟩ <;> decide

/-- Claim C2 (amended): for every text on which the Your Answer and
Correct Answer regexes find no match, parseQuestion yields
yourAnswer = "" and correctAnswer = "", and the isCorrect flag computed
for that analysis is `true`, because the two empty strings compare
equal. -/
theorem c2_no_answer_labels_amended (text : String)
    (hy : findAnswer "your".data (normalizeChars text.data) = none)
    (hc : findAnswer "correct".data (normalizeChars text.data) = none) :
    (parseQuestion text).yourAnswer = "" ∧ (parseQuestion text).correctAnswer = "" ∧
    isCorrectOf (parseQuestion text) = true := by
  have h1 : (parseQuestion text).yourAnswer = "" := by
    show (match findAnswer "your".data (normalizeChars text.data) with
      | some a => String.mk [a.toUpper]
      | none => "") = ""
    rw [hy]
  have h2 : (parseQuestion text).correctAnswer = "" := by
    show (match findAnswer "correct".data (normalizeChars text.data) with
      | some a => String.mk [a.toUpper]
      | none => "") = ""
    rw [hc]
  refine ⟨h1, h2, ?_⟩
  unfold isCorrectOf
  rw [h1, h2]
  rfl

/-- Witness for the amended C2 at a concrete input. -/
theorem c2_no_answer_labels_witness :
    (parseQuestion "What is S3?").yourAnswer = "" ∧
    (parseQuestion "What is S3?").correctAnswer = "" ∧
    isCorrectOf (parseQuestion "What is S3?") = true :=
  c2_no_answer_labels_amended "What is S3?" (by decide) (by decide)

/-! ## Claim C3 -/

/-- Claim C3 counterexample: the text "Systems Manager" produces the
service list ["Systems Manager", "Systems Manager"] — a duplicate — since
the vocabulary lists that name twice and `tagQuestion` has no membership
test. -/
theorem c3_counterexample :
    (tagQuestion "Systems Manager").services = ["Systems Manager", "Systems Manager"] ∧
    ¬ (tagQuestion "Systems Manager").services.Nodup := by
  refine ⟨by decide, by decide⟩

theorem aws_services_filtered_nodup :
    (AWS_SERVICES.filter (fun s => decide (s ≠ "Systems Manager"))).Nodup := by decide

theorem aws_services_count_sm : AWS_SERVICES.count "Systems Manager" = 2 := by decide

/-- Claim C3 (amended): every matched category other than
"Systems Manager" appears at most once in the services list;
"Systems Manager", which occurs twice in the vocabulary list, appears at
most twice. -/
theorem c3_no_duplicates_amended (text : String) (s : String)
    (h : s ≠ "Systems Manager") :
    (tagQuestion text).services.count s ≤ 1 ∧
    (tagQuestion text).services.count "Systems Manager" ≤ 2 := by
  have hsub : ((tagQuestion text).services).Sublist AWS_SERVICES := by
    simp only [tagQuestion]
    exact List.filter_sublist _
  constructor
  · have hcount : AWS_SERVICES.count s ≤ 1 := by
      have heq : AWS_SERVICES.count s =
          (AWS_SERVICES.filter (fun x => decide (x ≠ "Systems Manager"))).count s := by
        rw [List.count_filter (by simpa using h)]
      rw [heq]
      exact List.nodup_iff_count_le_one.mp aws_services_filtered_nodup s
    exact le_trans (hsub.count_le s) hcount
  · exact le_trans (hsub.count_le "Systems Manager") (le_of_eq aws_services_count_sm)

/-- Witness for the amended C3 at a concrete input. -/
theorem c3_no_duplicates_witness :
    ("EC2" : String) ≠ "Systems Manager" ∧
    (tagQuestion "EC2 and Systems Manager").services.count "EC2" ≤ 1 ∧
    (tagQuestion "EC2 and Systems Manager").services.count "Systems Manager" ≤ 2 := by
  have h := c3_no_duplicates_amended "EC2 and Systems Manager" "EC2" (by decide)
  exact ⟨by decide, h.1, h.2⟩
